import Mathlib

/-!
# UT2Hash — verification of the core of `ut2hash.py`

Shallow embedding of the UT2Hash repository (a UT2004 asset hasher): the
UZ2 chunked-container decoder, the file classifier `check_one_file`, the
sqlite-backed hash index (`Database`), and the scan orchestrator
`scan_directory`.  Byte strings are `List Nat`, the MD5 accumulator is the
list of bytes fed to it (digests are obtained by applying an arbitrary
digest function `md5fn` to that list), and `zlib.decompress` is an oracle
parameter `Inflate` (its result, or `none` when zlib raises `zlib.error`).
Loops are embedded with an explicit iteration bound (`fuel`); every loop
consumes at least one byte (at least 8 for the chunk loop) per iteration,
so the `length + 1` bound supplied by the wrappers never runs out, which
the `*_congr` lemmas make precise.
-/

namespace UT2Hash

/-- Byte strings are lists of byte values. -/
abbrev Bytes := List Nat

/-- Python exceptions that can escape the modelled code paths:
`zlib.error` from `zlib.decompress` (ut2hash.py line 215), the
`AssertionError` of `Database.put`'s digest-length assert (line 88), and
the `UnboundLocalError` raised when `scan_directory`'s `except` handler
(line 254) reads the local `rfn` before any assignment to it. -/
inductive PyExc where
  | zlibError
  | assertionError
  | unboundLocalError
deriving DecidableEq

/-- `zlib.decompress` modelled as an oracle: `(data, wbits, bufsize)` to
the decompressed bytes, or `none` when zlib raises `zlib.error`. -/
abbrev Inflate := Bytes → Int → Nat → Option Bytes

/-- The `wbits` argument of the `zlib.decompress(chunk, 15, us)` call on
ut2hash.py line 215. -/
def UZ2_WBITS : Int := 15

/-- zlib semantics of the `wbits` argument: a negative value selects the
raw, headerless deflate format; values 8..15 expect a zlib header. -/
def zlibRawMode (w : Int) : Prop := w < 0

/-- One little-endian unsigned 32-bit integer, as read by
`struct.unpack("<II", ...)` from 4 bytes. -/
def parseU32 (l : Bytes) : Nat :=
  l.getD 0 0 + 256 * l.getD 1 0 + 65536 * l.getD 2 0 + 16777216 * l.getD 3 0

/-- Little-endian 4-byte encoding of `n`; inverse of `parseU32` below
`2 ^ 32`. -/
def encodeU32 (n : Nat) : Bytes :=
  [n % 256, n / 256 % 256, n / 65536 % 256, n / 16777216 % 256]

/-- POSIX path separator, as used by `os.path.basename`. -/
def sepChar : Char := '/'

/-- The characters after the last separator (empty when the string ends in
a separator), scanning left to right and resetting at each separator. -/
def afterLastSep (l : List Char) : List Char :=
  l.foldl (fun acc c => if c = sepChar then [] else acc ++ [c]) []

/-- `os.path.basename` (POSIX): the part of the path after the last
separator. -/
def pyBasename (s : String) : String := ⟨afterLastSep s.data⟩

/-- `str.endswith`. -/
def strEndsWith (s suf : String) : Bool := suf.data.isSuffixOf s.data

/-- `str.casefold`, modelled as ASCII lowercasing of each character. -/
def strLower (s : String) : String := ⟨s.data.map Char.toLower⟩

/-- The container test of ut2hash.py line 177:
`fn.casefold().endswith(os.path.extsep + "uz2")`; `casefold` is modelled
as `toLower` (ASCII filenames). -/
def isUz2Name (fn : String) : Bool := strEndsWith (strLower fn) ".uz2"

/-- The plain-asset allow-list test of ut2hash.py lines 222-224:
`endswith(q)` on the casefolded full name, with the suffixes exactly as in
the source (note: no dot, so e.g. any name ending in the letter `u`
matches `"u"`). -/
def isKnownExt (fn : String) : Bool :=
  ["u", "ucl", "ukx", "uxx", "ka", "ut2", "ogg", "uax", "usx", "utx"].any
    (fun q => strEndsWith (strLower fn) q)

/-- The UZ2 decode loop of ut2hash.py lines 185-218, with an explicit
iteration bound `fuel` (each iteration consumes at least 8 bytes of the
stream, so the `stream.length + 1` bound of `decodeLoop` never runs out;
see `decodeLoopF_congr`).  State: `stream` is the unread rest of the open
file, `fs` the remaining-byte counter of the source, `size` the running
`size += us` total, `acc` the bytes fed to the MD5 accumulator so far.
Outcomes: `.ok (some (size, acc))` for the successful exit (loop-condition
exit at `fs <= 0`, or the `struct.error` break when fewer than 8 header
bytes remain); `.ok none` for the line-211 `return (rfn, None, None)` on a
truncated chunk payload; `.error` for an uncaught `zlib.error`. -/
def decodeLoopF (inflate : Inflate) :
    Nat → Bytes → Int → Nat → Bytes → Except PyExc (Option (Nat × Bytes))
  | 0, _, _, _, _ => .error .zlibError
  | fuel + 1, stream, fs, size, acc =>
    if fs ≤ 0 then .ok (some (size, acc))
    else if stream.length < 8 then .ok (some (size, acc))
    else
      let cs := parseU32 (stream.take 4)
      let us := parseU32 ((stream.drop 4).take 4)
      let chunk := (stream.drop 8).take cs
      if chunk.length ≠ cs then .ok none
      else
        match inflate chunk UZ2_WBITS us with
        | none => .error .zlibError
        | some out =>
          decodeLoopF inflate fuel (stream.drop (8 + cs)) (fs - (8 + (cs : Int)))
            (size + us) (acc ++ out)

/-- The UZ2 decode loop entered with `fs` equal to the length of the
unread stream (the invariant `check_one_file` maintains, since `fs`
starts at `os.path.getsize(fn)` and each iteration consumes exactly
`8 + cs` bytes). -/
def decodeAux (inflate : Inflate) (stream : Bytes) (size : Nat) (acc : Bytes) :
    Except PyExc (Option (Nat × Bytes)) :=
  decodeLoopF inflate (stream.length + 1) stream (stream.length : Int) size acc

/-- The UZ2 decode loop started on a whole file, as in `check_one_file`. -/
def decodeLoop (inflate : Inflate) (content : Bytes) : Except PyExc (Option (Nat × Bytes)) :=
  decodeAux inflate content 0 []

/-- The raw-hash read loop of ut2hash.py lines 236-240: read the file in
32768-byte blocks, feeding each into the accumulator (fuel as above; each
iteration consumes at least one byte). -/
def readChunksF : Nat → Bytes → Bytes
  | 0, _ => []
  | fuel + 1, content =>
    if content = [] then []
    else content.take 32768 ++ readChunksF fuel (content.drop 32768)

/-- The bytes accumulated by the raw-hash read loop. -/
def readChunks (content : Bytes) : Bytes := readChunksF (content.length + 1) content

/-- The `.uz2` branch of `check_one_file` (ut2hash.py lines 177-220): the
indexed name is `os.path.basename(fn[:-4])`, and the decode loop's
outcome is returned as `(rfn, size, hexdigest)` on success or the
`(rfn, None, None)` sentinel on a truncated chunk. -/
def uz2Route (md5fn : Bytes → String) (inflate : Inflate) (fn : String) (content : Bytes) :
    Except PyExc (String × Option (Nat × String)) :=
  let rfn := pyBasename (fn.dropRight 4)
  match decodeLoop inflate content with
  | .error e => .error e
  | .ok none => .ok (rfn, none)
  | .ok (some (size, acc)) => .ok (rfn, some (size, md5fn acc))

/-- The plain-hash tail of `check_one_file` (ut2hash.py lines 231-241):
the on-disk size check against 2147483647, then the block-read hash. -/
def rawRoute (md5fn : Bytes → String) (fn : String) (content : Bytes) :
    Except PyExc (String × Option (Nat × String)) :=
  let rfn := pyBasename fn
  if 2147483647 < content.length then .ok (rfn, none)
  else .ok (rfn, some (content.length, md5fn (readChunks content)))

/-- `HashGrabber.check_one_file` (ut2hash.py lines 172-241).  A file is
`(fn, content)`; `os.path.getsize` is `content.length`.  The result is
`(rfn, size, digest)` with the `(rfn, None, None)` no-hash sentinel
modelled as a `none` second component, and uncaught exceptions as
`.error`. -/
def check_one_file (md5fn : Bytes → String) (inflate : Inflate)
    (fn : String) (content : Bytes) (skip_weird : Bool) :
    Except PyExc (String × Option (Nat × String)) :=
  if isUz2Name fn then uz2Route md5fn inflate fn content
  else if isKnownExt fn then rawRoute md5fn fn content
  else if skip_weird then .ok (pyBasename fn, none)
  else rawRoute md5fn fn content

/-- A persisted row of the `hashes` table (ut2hash.py line 80):
`(id INTEGER PRIMARY KEY, filename TEXT, size INTEGER, md5 TEXT)`. -/
structure Row where
  id : Nat
  filename : String
  size : Nat
  md5 : String
deriving DecidableEq

/-- The `Database` component (ut2hash.py lines 50-156).  `rows` is the
table as seen by the connection, `committed` the durable state written by
the last `conn.commit()`, `count` the `self.count` next-id counter, and
`force_casefold` the lowercasing switch consulted by `put`. -/
structure DB where
  rows : List Row
  committed : List Row
  count : Nat
  force_casefold : Bool
deriving DecidableEq

/-- `PERIODICALLY_COMMIT` (ut2hash.py line 19). -/
def PERIODICALLY_COMMIT : Nat := 100

/-- `MAX(id)` over a row list, `0` when empty (the `None`-to-`0` default of
`Database.initialize`, lines 82-83). -/
def maxIdRows (l : List Row) : Nat := (l.map Row.id).foldr max 0

/-- `Database.initialize` (ut2hash.py lines 74-84): optionally drop the
table, then set `count` to `MAX(id) + 1` (`1` when the table is empty). -/
def DB.initTable (db : DB) (delete : Bool) : DB :=
  let rows := if delete then [] else db.rows
  { db with rows := rows, count := maxIdRows rows + 1 }

/-- `Database.put` (ut2hash.py lines 86-94): assert the digest has length
32, casefold the name when configured, insert `(count, fn, size, md5)`,
increment `count`, and `conn.commit()` when the incremented `count` is a
multiple of `PERIODICALLY_COMMIT`. -/
def DB.put (db : DB) (fn : String) (size : Nat) (md5 : String) : Except PyExc DB :=
  if md5.length = 32 then
    let fn := if db.force_casefold then strLower fn else fn
    let rows := db.rows ++ [⟨db.count, fn, size, md5⟩]
    let count := db.count + 1
    .ok { db with rows := rows, count := count,
                  committed := if count % PERIODICALLY_COMMIT = 0 then rows else db.committed }
  else .error .assertionError

/-- `Database.commit` (ut2hash.py lines 96-98): flush buffered changes. -/
def DB.commit (db : DB) : DB := { db with committed := db.rows }

/-- Closing and opening the store anew (`Database.__init__`, lines 52-58):
the connection sees the durable rows; `count` is `0` until
`initialize` runs; `force_casefold` starts `False`. -/
def DB.reopen (db : DB) : DB :=
  { rows := db.committed, committed := db.committed, count := 0, force_casefold := false }

/-- `MAX(id)` of one `(filename, md5)` group, as produced per group by the
`GROUP BY filename, md5` subquery of `Database.remove_duplicates`. -/
def groupMaxId (rows : List Row) (f m : String) : Nat :=
  ((rows.filter (fun r => r.filename == f && r.md5 == m)).map Row.id).foldr max 0

/-- `Database.remove_duplicates` (ut2hash.py lines 151-156):
`DELETE FROM hashes WHERE id NOT IN (SELECT MAX(id) FROM hashes GROUP BY
filename, md5)` — keep the rows whose `id` is the maximum id of some
`(filename, md5)` group present in the table — then `commit()`. -/
def DB.remove_duplicates (db : DB) : DB :=
  let keep := db.rows.filter
    (fun r => db.rows.any (fun s => r.id == groupMaxId db.rows s.filename s.md5))
  { db with rows := keep, committed := keep }

/-- `HashGrabber.scan_directory`'s per-file loop (ut2hash.py lines
246-261), over an already-enumerated list of `(path, content)` regular
files.  `rfnVar` models the Python local variable `rfn`: the bare
`except` handler of line 252 logs with `rfn`, which raises
`UnboundLocalError` when no iteration has yet assigned it.  On the
no-hash sentinel the file is skipped; otherwise the row is `put`, whose
exceptions (outside the `try`) propagate. -/
def scanLoop (md5fn : Bytes → String) (inflate : Inflate) :
    List (String × Bytes) → Option String → DB → Except PyExc DB
  | [], _, db => .ok db.commit
  | (fn, content) :: rest, rfnVar, db =>
    match check_one_file md5fn inflate fn content true with
    | .error _ =>
      match rfnVar with
      | none => .error .unboundLocalError
      | some _ => scanLoop md5fn inflate rest rfnVar db
    | .ok (rfn, none) => scanLoop md5fn inflate rest (some rfn) db
    | .ok (rfn, some (sz, dg)) =>
      match db.put rfn sz dg with
      | .error e => .error e
      | .ok db' => scanLoop md5fn inflate rest (some rfn) db'

/-- `HashGrabber.scan_directory` (ut2hash.py lines 243-262): run the
per-file loop (with `rfn` initially unbound), then `self.db.commit()`. -/
def scan_directory (md5fn : Bytes → String) (inflate : Inflate)
    (db : DB) (files : List (String × Bytes)) : Except PyExc DB :=
  scanLoop md5fn inflate files none db

/-- A container chunk as described by the spec's data model: the two
declared sizes and the raw payload bytes. -/
structure Chunk where
  cs : Nat
  us : Nat
  payload : Bytes
deriving DecidableEq

/-- Modelled from the spec's container format (spec sections 3 and 6), for
the refinement claim: parse a byte string as a sequence of
`{u32 cs; u32 us; byte[cs] payload}` units filling it exactly (`none`
when the bytes are not such a sequence).  Fuel as in `decodeLoopF`. -/
def specChunksF : Nat → Bytes → Option (List Chunk)
  | 0, _ => none
  | fuel + 1, l =>
    if l = [] then some []
    else if l.length < 8 then none
    else
      let cs := parseU32 (l.take 4)
      let us := parseU32 ((l.drop 4).take 4)
      let payload := (l.drop 8).take cs
      if payload.length < cs then none
      else
        match specChunksF fuel (l.drop (8 + cs)) with
        | some cl => some (⟨cs, us, payload⟩ :: cl)
        | none => none

/-- The chunk sequence of an exactly-filled container byte string. -/
def specChunks (l : Bytes) : Option (List Chunk) := specChunksF (l.length + 1) l

/-- Modelled from the spec's words for the refinement claim: decompress
every chunk payload independently (with the same inflate primitive and
arguments the code uses), `none` as soon as one fails. -/
def decompressAll (inflate : Inflate) : List Chunk → Option (List Bytes)
  | [] => some []
  | c :: cl =>
    match inflate c.payload UZ2_WBITS c.us, decompressAll inflate cl with
    | some out, some outs => some (out :: outs)
    | _, _ => none

/-- The sum of the declared uncompressed sizes, i.e. the `size += us`
total of the decode loop over a whole chunk list. -/
def sumUs (cl : List Chunk) : Nat := (cl.map Chunk.us).sum

/-! ## Basic lemmas about the decode loop -/

/-- The fuel bound of `decodeLoopF` is irrelevant as long as it exceeds
the stream length (each iteration consumes at least 8 bytes). -/
theorem decodeLoopF_congr (inflate : Inflate) :
    ∀ f₁ f₂ stream fs size acc, stream.length < f₁ → stream.length < f₂ →
      decodeLoopF inflate f₁ stream fs size acc = decodeLoopF inflate f₂ stream fs size acc := by
  intro f₁
  induction f₁ with
  | zero => intro f₂ stream fs size acc h1 _; omega
  | succ f ih =>
    intro f₂ stream fs size acc h1 h2
    cases f₂ with
    | zero => omega
    | succ g =>
      simp only [decodeLoopF]
      by_cases hfs : fs ≤ 0
      · rw [if_pos hfs, if_pos hfs]
      rw [if_neg hfs, if_neg hfs]
      by_cases hlen : stream.length < 8
      · rw [if_pos hlen, if_pos hlen]
      rw [if_neg hlen, if_neg hlen]
      by_cases hck : ((stream.drop 8).take (parseU32 (stream.take 4))).length
          ≠ parseU32 (stream.take 4)
      · rw [if_pos hck, if_pos hck]
      rw [if_neg hck, if_neg hck]
      cases hinf : inflate ((stream.drop 8).take (parseU32 (stream.take 4))) UZ2_WBITS
          (parseU32 ((stream.drop 4).take 4)) with
      | none => rfl
      | some out =>
        apply ih
        · simp only [List.length_drop]; omega
        · simp only [List.length_drop]; omega

/-- Exit lemma: on an empty stream the loop succeeds at once with the
accumulated state. -/
theorem decodeAux_nil (inflate : Inflate) (size : Nat) (acc : Bytes) :
    decodeAux inflate [] size acc = .ok (some (size, acc)) := by
  simp [decodeAux, decodeLoopF]

/-- Break lemma: when fewer than 8 bytes remain (but the stream is
nonempty), `struct.unpack` raises `struct.error` and the loop breaks,
returning the accumulated state as a success. -/
theorem decodeAux_short (inflate : Inflate) (stream : Bytes) (size : Nat) (acc : Bytes)
    (h : stream.length < 8) :
    decodeAux inflate stream size acc = .ok (some (size, acc)) := by
  cases stream with
  | nil => exact decodeAux_nil ..
  | cons b l =>
    simp only [decodeAux, decodeLoopF]
    rw [if_neg (by simp), if_pos (by simpa using h)]

/-- Truncation lemma: a chunk whose payload read comes back shorter than
its declared `compressed_size` makes the loop return the no-hash
sentinel. -/
theorem decodeAux_trunc (inflate : Inflate) (stream : Bytes) (size : Nat) (acc : Bytes)
    (h8 : 8 ≤ stream.length)
    (hck : ((stream.drop 8).take (parseU32 (stream.take 4))).length
      ≠ parseU32 (stream.take 4)) :
    decodeAux inflate stream size acc = .ok none := by
  simp only [decodeAux, decodeLoopF]
  rw [if_neg (by omega : ¬ ((stream.length : Int) ≤ 0)),
      if_neg (by omega : ¬ (stream.length < 8)), if_pos hck]

/-- Inflate-failure lemma: when the chunk payload is fully present but the
inflate primitive fails on it, the `zlib.error` escapes the loop. -/
theorem decodeAux_inflateFail (inflate : Inflate) (stream : Bytes) (size : Nat) (acc : Bytes)
    (h8 : 8 ≤ stream.length)
    (hck : ((stream.drop 8).take (parseU32 (stream.take 4))).length
      = parseU32 (stream.take 4))
    (hinf : inflate ((stream.drop 8).take (parseU32 (stream.take 4))) UZ2_WBITS
      (parseU32 ((stream.drop 4).take 4)) = none) :
    decodeAux inflate stream size acc = .error .zlibError := by
  simp only [decodeAux, decodeLoopF]
  rw [if_neg (by omega : ¬ ((stream.length : Int) ≤ 0)),
      if_neg (by omega : ¬ (stream.length < 8)), if_neg (not_not_intro hck), hinf]

/-- Step lemma: a fully-present chunk whose inflate succeeds is consumed,
its declared `us` added to the size total and its decompressed bytes
appended to the accumulator. -/
theorem decodeAux_step (inflate : Inflate) (stream : Bytes) (size : Nat) (acc out : Bytes)
    (h8 : 8 ≤ stream.length)
    (hck : ((stream.drop 8).take (parseU32 (stream.take 4))).length
      = parseU32 (stream.take 4))
    (hinf : inflate ((stream.drop 8).take (parseU32 (stream.take 4))) UZ2_WBITS
      (parseU32 ((stream.drop 4).take 4)) = some out) :
    decodeAux inflate stream size acc
      = decodeAux inflate (stream.drop (8 + parseU32 (stream.take 4)))
          (size + parseU32 ((stream.drop 4).take 4)) (acc ++ out) := by
  have hcsle : 8 + parseU32 (stream.take 4) ≤ stream.length := by
    have := hck
    simp only [List.length_take, List.length_drop] at this
    omega
  have key : decodeAux inflate stream size acc
      = decodeLoopF inflate stream.length (stream.drop (8 + parseU32 (stream.take 4)))
          ((stream.length : Int) - (8 + (parseU32 (stream.take 4) : Int)))
          (size + parseU32 ((stream.drop 4).take 4)) (acc ++ out) := by
    simp only [decodeAux, decodeLoopF]
    rw [if_neg (by omega : ¬ ((stream.length : Int) ≤ 0)),
        if_neg (by omega : ¬ (stream.length < 8)), if_neg (not_not_intro hck), hinf]
  have hfs : (stream.length : Int) - (8 + (parseU32 (stream.take 4) : Int))
      = ((stream.drop (8 + parseU32 (stream.take 4))).length : Int) := by
    simp only [List.length_drop]; omega
  rw [key, hfs]
  simp only [decodeAux]
  apply decodeLoopF_congr
  · simp only [List.length_drop]; omega
  · simp only [List.length_drop]; omega

/-! ## Lemmas about the spec-side chunk parse -/

/-- The fuel bound of `specChunksF` is irrelevant as long as it exceeds
the input length. -/
theorem specChunksF_congr : ∀ f₁ f₂ l, l.length < f₁ → l.length < f₂ →
    specChunksF f₁ l = specChunksF f₂ l := by
  intro f₁
  induction f₁ with
  | zero => intro f₂ l h1 _; omega
  | succ f ih =>
    intro f₂ l h1 h2
    cases f₂ with
    | zero => omega
    | succ g =>
      simp only [specChunksF]
      by_cases hnil : l = []
      · rw [if_pos hnil, if_pos hnil]
      rw [if_neg hnil, if_neg hnil]
      by_cases hlen : l.length < 8
      · rw [if_pos hlen, if_pos hlen]
      rw [if_neg hlen, if_neg hlen]
      by_cases hck : ((l.drop 8).take (parseU32 (l.take 4))).length < parseU32 (l.take 4)
      · rw [if_pos hck, if_pos hck]
      rw [if_neg hck, if_neg hck]
      have hcsle : 8 + parseU32 (l.take 4) ≤ l.length := by
        simp only [List.length_take, List.length_drop] at hck
        omega
      rw [ih g (l.drop (8 + parseU32 (l.take 4)))
        (by simp only [List.length_drop]; omega) (by simp only [List.length_drop]; omega)]

/-- Only the empty byte string parses as the empty chunk sequence. -/
theorem specChunks_eq_nil {l : Bytes} (h : specChunks l = some []) : l = [] := by
  by_cases hnil : l = []
  · exact hnil
  exfalso
  simp only [specChunks, specChunksF, if_neg hnil] at h
  by_cases hlen : l.length < 8
  · rw [if_pos hlen] at h; exact Option.noConfusion h
  rw [if_neg hlen] at h
  by_cases hck : ((l.drop 8).take (parseU32 (l.take 4))).length < parseU32 (l.take 4)
  · rw [if_pos hck] at h; exact Option.noConfusion h
  rw [if_neg hck] at h
  cases hrec : specChunksF l.length (l.drop (8 + parseU32 (l.take 4))) with
  | none => rw [hrec] at h; exact Option.noConfusion h
  | some cl => rw [hrec] at h; simp at h

/-- Inversion of a successful parse of a nonempty chunk sequence: the
head chunk's fields are read off the front of the byte string, its
payload is fully present, and the rest of the string parses as the
tail. -/
theorem specChunks_cons {l : Bytes} {c : Chunk} {cl : List Chunk}
    (h : specChunks l = some (c :: cl)) :
    8 ≤ l.length ∧
    c.cs = parseU32 (l.take 4) ∧
    c.us = parseU32 ((l.drop 4).take 4) ∧
    c.payload = (l.drop 8).take c.cs ∧
    c.payload.length = c.cs ∧
    8 + c.cs ≤ l.length ∧
    specChunks (l.drop (8 + c.cs)) = some cl := by
  by_cases hnil : l = []
  · subst hnil; simp [specChunks, specChunksF] at h
  simp only [specChunks, specChunksF, if_neg hnil] at h
  by_cases hlen : l.length < 8
  · rw [if_pos hlen] at h; exact Option.noConfusion h
  rw [if_neg hlen] at h
  by_cases hck : ((l.drop 8).take (parseU32 (l.take 4))).length < parseU32 (l.take 4)
  · rw [if_pos hck] at h; exact Option.noConfusion h
  rw [if_neg hck] at h
  have hpl : ((l.drop 8).take (parseU32 (l.take 4))).length = parseU32 (l.take 4) := by
    simp only [List.length_take, List.length_drop] at hck ⊢
    omega
  have hcsle : 8 + parseU32 (l.take 4) ≤ l.length := by
    simp only [List.length_take, List.length_drop] at hck
    omega
  cases hrec : specChunksF l.length (l.drop (8 + parseU32 (l.take 4))) with
  | none => rw [hrec] at h; exact Option.noConfusion h
  | some cl' =>
    rw [hrec] at h
    obtain ⟨hhd, htl⟩ := List.cons.inj (Option.some.inj h)
    subst htl
    subst hhd
    refine ⟨by omega, rfl, rfl, rfl, hpl, hcsle, ?_⟩
    show specChunks (l.drop (8 + parseU32 (l.take 4))) = some cl'
    rw [specChunks]
    exact (specChunksF_congr _ _ _
      (by simp only [List.length_drop]; omega)
      (by simp only [List.length_drop]; omega)).trans hrec

/-! ## The decode loop over a parsed chunk prefix -/

/-- Running the decode loop over a byte string that starts with an
exactly-parsed chunk sequence, all of whose payloads inflate
successfully, consumes that prefix: the declared uncompressed sizes are
added to the size total and the decompressed payloads are appended, in
order, to the accumulator. -/
theorem decodeAux_prefix (inflate : Inflate) :
    ∀ (cl : List Chunk) (pre tl : Bytes) (outs : List Bytes) (size : Nat) (acc : Bytes),
      specChunks pre = some cl →
      decompressAll inflate cl = some outs →
      decodeAux inflate (pre ++ tl) size acc
        = decodeAux inflate tl (size + sumUs cl) (acc ++ outs.flatten) := by
  intro cl
  induction cl with
  | nil =>
    intro pre tl outs size acc hp hd
    obtain rfl : pre = [] := specChunks_eq_nil hp
    simp only [decompressAll] at hd
    obtain rfl : outs = [] := (Option.some.inj hd).symm
    simp [sumUs]
  | cons c cl ih =>
    intro pre tl outs size acc hp hd
    obtain ⟨h8, hcs, hus, hpay, hplen, hcsle, hrest⟩ := specChunks_cons hp
    simp only [decompressAll] at hd
    cases hinf : inflate c.payload UZ2_WBITS c.us with
    | none => rw [hinf] at hd; exact absurd hd (by simp)
    | some out =>
      rw [hinf] at hd
      cases hrec : decompressAll inflate cl with
      | none => rw [hrec] at hd; exact absurd hd (by simp)
      | some outs' =>
        rw [hrec] at hd
        obtain rfl : outs = out :: outs' := (Option.some.inj hd).symm
        have e1 : (pre ++ tl).take 4 = pre.take 4 :=
          List.take_append_of_le_length (by omega)
        have e2 : ((pre ++ tl).drop 4).take 4 = (pre.drop 4).take 4 := by
          rw [List.drop_append_of_le_length (by omega),
              List.take_append_of_le_length (by simp only [List.length_drop]; omega)]
        have e3 : ((pre ++ tl).drop 8).take (parseU32 ((pre ++ tl).take 4)) = c.payload := by
          rw [List.drop_append_of_le_length (by omega), e1, ← hcs,
              List.take_append_of_le_length (by simp only [List.length_drop]; omega), ← hpay]
        have e4 : (pre ++ tl).drop (8 + parseU32 ((pre ++ tl).take 4))
            = pre.drop (8 + c.cs) ++ tl := by
          rw [e1, ← hcs, List.drop_append_of_le_length (by omega)]
        rw [decodeAux_step inflate (pre ++ tl) size acc out
            (by simp only [List.length_append]; omega)
            (by rw [e3, e1, ← hcs]; exact hplen)
            (by rw [e3, e2, ← hus]; exact hinf)]
        rw [e4, e2, ← hus]
        rw [ih (pre.drop (8 + c.cs)) tl outs' (size + c.us) (acc ++ out) hrest hrec]
        simp [sumUs, Nat.add_assoc]

/-! ## Header encoding and top-level decode results -/

/-- `parseU32` inverts `encodeU32` below `2 ^ 32`. -/
theorem parseU32_encodeU32 {n : Nat} (h : n < 4294967296) : parseU32 (encodeU32 n) = n := by
  have e : parseU32 (encodeU32 n)
      = n % 256 + 256 * (n / 256 % 256) + 65536 * (n / 65536 % 256)
        + 16777216 * (n / 16777216 % 256) := rfl
  rw [e]; omega

/-- Reading the first header field of an encoded chunk. -/
theorem encChunk_take4 (cs us : Nat) (p : Bytes) :
    (encodeU32 cs ++ (encodeU32 us ++ p)).take 4 = encodeU32 cs := by
  simp [encodeU32]

/-- Reading the second header field of an encoded chunk. -/
theorem encChunk_drop4_take4 (cs us : Nat) (p : Bytes) :
    ((encodeU32 cs ++ (encodeU32 us ++ p)).drop 4).take 4 = encodeU32 us := by
  simp [encodeU32]

/-- Dropping the 8 header bytes of an encoded chunk. -/
theorem encChunk_drop8 (cs us : Nat) (p : Bytes) :
    (encodeU32 cs ++ (encodeU32 us ++ p)).drop 8 = p := by
  simp [encodeU32]

/-- The length of an encoded chunk. -/
theorem encChunk_length (cs us : Nat) (p : Bytes) :
    (encodeU32 cs ++ (encodeU32 us ++ p)).length = 8 + p.length := by
  simp [encodeU32]; omega

/-- A container that parses exactly into chunks whose payloads all
inflate decodes successfully: the result is the declared-size total and
the in-order concatenation of the decompressed payloads. -/
theorem decodeLoop_ok (inflate : Inflate) (content : Bytes) (cl : List Chunk)
    (outs : List Bytes) (hp : specChunks content = some cl)
    (hd : decompressAll inflate cl = some outs) :
    decodeLoop inflate content = .ok (some (sumUs cl, outs.flatten)) := by
  have h := decodeAux_prefix inflate cl content [] outs 0 [] hp hd
  rw [List.append_nil] at h
  rw [decodeLoop, h, decodeAux_nil]
  simp

/-- `check_one_file` on a `.uz2` name whose content decodes successfully:
name from stripping the 4-character suffix then taking the basename,
size from the declared-size total, digest from the concatenated
decompressed payloads. -/
theorem check_uz2_ok (md5fn : Bytes → String) (inflate : Inflate) (fn : String)
    (content : Bytes) (sw : Bool) (cl : List Chunk) (outs : List Bytes)
    (hfn : isUz2Name fn = true) (hp : specChunks content = some cl)
    (hd : decompressAll inflate cl = some outs) :
    check_one_file md5fn inflate fn content sw
      = .ok (pyBasename (fn.dropRight 4), some (sumUs cl, md5fn outs.flatten)) := by
  rw [check_one_file, if_pos hfn, uz2Route, decodeLoop_ok inflate content cl outs hp hd]

/-- `check_one_file` on a `.uz2` name whose content is a well-formed,
fully-inflating chunk sequence followed by a chunk header that declares
more payload bytes than remain: the decode aborts with the
`(rfn, None, None)` sentinel — no digest, no escaping exception. -/
theorem check_uz2_trunc (md5fn : Bytes → String) (inflate : Inflate) (fn : String)
    (sw : Bool) (pre : Bytes) (cl : List Chunk) (outs : List Bytes)
    (cs us : Nat) (p : Bytes)
    (hfn : isUz2Name fn = true) (hp : specChunks pre = some cl)
    (hd : decompressAll inflate cl = some outs)
    (hcs : cs < 4294967296) (hus : us < 4294967296) (hshort : p.length < cs) :
    check_one_file md5fn inflate fn (pre ++ (encodeU32 cs ++ (encodeU32 us ++ p))) sw
      = .ok (pyBasename (fn.dropRight 4), none) := by
  rw [check_one_file, if_pos hfn, uz2Route, decodeLoop,
    decodeAux_prefix inflate cl pre (encodeU32 cs ++ (encodeU32 us ++ p)) outs 0 [] hp hd,
    decodeAux_trunc]
  · rw [encChunk_length]; omega
  · rw [encChunk_take4, parseU32_encodeU32 hcs, encChunk_drop8,
      List.take_of_length_le (Nat.le_of_lt hshort)]
    omega

/-- `check_one_file` on a `.uz2` name whose content is a well-formed,
fully-inflating chunk sequence followed by a fully-present chunk whose
payload the inflate primitive rejects: the `zlib.error` escapes
`check_one_file`. -/
theorem check_uz2_inflateFail (md5fn : Bytes → String) (inflate : Inflate) (fn : String)
    (sw : Bool) (pre : Bytes) (cl : List Chunk) (outs : List Bytes)
    (cs us : Nat) (p rest : Bytes)
    (hfn : isUz2Name fn = true) (hp : specChunks pre = some cl)
    (hd : decompressAll inflate cl = some outs)
    (hcs : cs < 4294967296) (hus : us < 4294967296) (hplen : p.length = cs)
    (hinf : inflate p UZ2_WBITS us = none) :
    check_one_file md5fn inflate fn (pre ++ (encodeU32 cs ++ (encodeU32 us ++ (p ++ rest)))) sw
      = .error .zlibError := by
  have e1 : parseU32 ((encodeU32 cs ++ (encodeU32 us ++ (p ++ rest))).take 4) = cs := by
    rw [encChunk_take4, parseU32_encodeU32 hcs]
  have e2 : ((encodeU32 cs ++ (encodeU32 us ++ (p ++ rest))).drop 8).take cs = p := by
    rw [encChunk_drop8, List.take_append_of_le_length (Nat.le_of_eq hplen.symm),
      List.take_of_length_le (Nat.le_of_eq hplen)]
  rw [check_one_file, if_pos hfn, uz2Route, decodeLoop,
    decodeAux_prefix inflate cl pre _ outs 0 [] hp hd,
    decodeAux_inflateFail]
  · rw [encChunk_length]; omega
  · rw [e1, e2, hplen]
  · rw [e1, e2, encChunk_drop4_take4, parseU32_encodeU32 hus]
    exact hinf

/-! ## Lemmas about the hash index -/

/-- Every member of a list bounds from below its `foldr max 0`. -/
theorem le_foldr_max : ∀ {l : List Nat} {a : Nat}, a ∈ l → a ≤ l.foldr max 0 := by
  intro l
  induction l with
  | nil => intro a h; cases h
  | cons b t ih =>
    intro a h
    rcases List.mem_cons.mp h with rfl | h'
    · exact le_max_left _ _
    · exact le_trans (ih h') (le_max_right _ _)

/-- `foldr max 0` is bounded by any upper bound of the list. -/
theorem foldr_max_le : ∀ {l : List Nat} {b : Nat}, (∀ a ∈ l, a ≤ b) → l.foldr max 0 ≤ b := by
  intro l
  induction l with
  | nil => intro b _; exact Nat.zero_le b
  | cons c t ih =>
    intro b h
    exact max_le (h c (by simp)) (ih fun a ha => h a (by simp [ha]))

/-- `foldr max 0` of a nonempty list is attained by a member. -/
theorem foldr_max_mem : ∀ {l : List Nat}, l ≠ [] → l.foldr max 0 ∈ l := by
  intro l
  induction l with
  | nil => intro h; exact absurd rfl h
  | cons b t ih =>
    intro _
    by_cases ht : t = []
    · subst ht; simp
    · rcases max_choice b (t.foldr max 0) with hm | hm
      · rw [List.foldr_cons, hm]; exact List.mem_cons_self _ _
      · rw [List.foldr_cons, hm]; exact List.mem_cons_of_mem _ (ih ht)

/-- Every row id is bounded by `maxIdRows`. -/
theorem id_le_maxIdRows {l : List Row} {r : Row} (h : r ∈ l) : r.id ≤ maxIdRows l :=
  le_foldr_max (List.mem_map.mpr ⟨r, h, rfl⟩)

/-- Characterization of `remove_duplicates` under the primary-key
invariant (no two rows share an id): a row survives exactly when its id
is the maximum id of its own `(filename, md5)` group. -/
theorem remove_duplicates_mem_iff (db : DB) (hnd : (db.rows.map Row.id).Nodup) (r : Row) :
    r ∈ db.remove_duplicates.rows
      ↔ r ∈ db.rows ∧ r.id = groupMaxId db.rows r.filename r.md5 := by
  simp only [DB.remove_duplicates, List.mem_filter]
  refine and_congr_right fun hr => ?_
  rw [List.any_eq_true]
  constructor
  · rintro ⟨s, hs, hbeq⟩
    have hid : r.id = groupMaxId db.rows s.filename s.md5 := by simpa using hbeq
    have hsin : s ∈ db.rows.filter (fun t => t.filename == s.filename && t.md5 == s.md5) :=
      List.mem_filter.mpr ⟨hs, by simp⟩
    have hne : (db.rows.filter (fun t => t.filename == s.filename && t.md5 == s.md5)).map Row.id
        ≠ [] := by
      intro hmap
      rw [List.map_eq_nil_iff] at hmap
      rw [hmap] at hsin
      cases hsin
    obtain ⟨t, htg, htid⟩ := List.mem_map.mp (foldr_max_mem hne)
    have htrows : t ∈ db.rows := List.mem_of_mem_filter htg
    have hrt : r = t := by
      apply List.inj_on_of_nodup_map hnd hr htrows
      rw [htid]
      exact hid
    obtain ⟨hfn, hmd⟩ : t.filename = s.filename ∧ t.md5 = s.md5 := by
      have := (List.mem_filter.mp htg).2
      simpa using this
    rw [hrt, hfn, hmd]
    exact hrt ▸ hid
  · intro hid
    exact ⟨r, hr, by simp [hid]⟩

/-- `remove_duplicates` flushes its result. -/
theorem remove_duplicates_commits (db : DB) :
    db.remove_duplicates.committed = db.remove_duplicates.rows := rfl

/-- The maximum id of each `(filename, md5)` group — in particular the
globally maximal id — survives `remove_duplicates`, so the table's
maximum id is unchanged. -/
theorem remove_duplicates_maxId (db : DB) :
    maxIdRows db.remove_duplicates.rows = maxIdRows db.rows := by
  by_cases h : db.rows = []
  · simp [DB.remove_duplicates, h]
  · apply le_antisymm
    · apply foldr_max_le
      intro a ha
      obtain ⟨t, ht, rfl⟩ := List.mem_map.mp ha
      exact id_le_maxIdRows (List.mem_of_mem_filter ht)
    · have hne : db.rows.map Row.id ≠ [] := by
        intro hmap
        exact h (List.map_eq_nil_iff.mp hmap)
      obtain ⟨t, ht, htid⟩ := List.mem_map.mp (foldr_max_mem hne)
      have hg : groupMaxId db.rows t.filename t.md5 = t.id := by
        apply le_antisymm
        · apply foldr_max_le
          intro a ha
          obtain ⟨u, hu, rfl⟩ := List.mem_map.mp ha
          exact le_trans (id_le_maxIdRows (List.mem_of_mem_filter hu)) (le_of_eq htid.symm)
        · exact le_foldr_max (List.mem_map.mpr ⟨t, List.mem_filter.mpr ⟨ht, by simp⟩, rfl⟩)
      have hkeep : t ∈ db.remove_duplicates.rows := by
        simp only [DB.remove_duplicates]
        refine List.mem_filter.mpr ⟨ht, ?_⟩
        rw [List.any_eq_true]
        exact ⟨t, ht, by simp [hg]⟩
      calc maxIdRows db.rows = t.id := htid.symm
        _ ≤ maxIdRows db.remove_duplicates.rows := id_le_maxIdRows hkeep

/-! ## The decoder consults the inflate primitive only at wbits = 15 -/

/-- Two inflate primitives that agree on all calls with
`wbits = UZ2_WBITS` are indistinguishable to the decode loop: every
inflate call the loop makes passes `wbits = 15`. -/
theorem decodeLoopF_agree (i₁ i₂ : Inflate)
    (h : ∀ b n, i₁ b UZ2_WBITS n = i₂ b UZ2_WBITS n) :
    ∀ fuel stream fs size acc,
      decodeLoopF i₁ fuel stream fs size acc = decodeLoopF i₂ fuel stream fs size acc := by
  intro fuel
  induction fuel with
  | zero => intro stream fs size acc; rfl
  | succ f ih =>
    intro stream fs size acc
    simp only [decodeLoopF]
    by_cases hfs : fs ≤ 0
    · rw [if_pos hfs, if_pos hfs]
    rw [if_neg hfs, if_neg hfs]
    by_cases hlen : stream.length < 8
    · rw [if_pos hlen, if_pos hlen]
    rw [if_neg hlen, if_neg hlen]
    by_cases hck : ((stream.drop 8).take (parseU32 (stream.take 4))).length
        ≠ parseU32 (stream.take 4)
    · rw [if_pos hck, if_pos hck]
    rw [if_neg hck, if_neg hck, h]
    cases i₂ ((stream.drop 8).take (parseU32 (stream.take 4))) UZ2_WBITS
        (parseU32 ((stream.drop 4).take 4)) with
    | none => rfl
    | some out => exact ih _ _ _ _

/-- The classifier's whole result depends on the inflate primitive only
through its behavior at `wbits = UZ2_WBITS = 15`. -/
theorem check_one_file_agree (md5fn : Bytes → String) (i₁ i₂ : Inflate)
    (h : ∀ b n, i₁ b UZ2_WBITS n = i₂ b UZ2_WBITS n)
    (fn : String) (content : Bytes) (sw : Bool) :
    check_one_file md5fn i₁ fn content sw = check_one_file md5fn i₂ fn content sw := by
  simp only [check_one_file]
  by_cases h1 : isUz2Name fn = true
  · rw [if_pos h1, if_pos h1]
    simp only [uz2Route, decodeLoop, decodeAux]
    rw [decodeLoopF_agree i₁ i₂ h]
  · rw [if_neg h1, if_neg h1]

/-! ## The returned name component -/

/-- The separator never appears in the fold that implements
`afterLastSep`, whatever separator-free accumulator it starts from. -/
theorem afterLastSep_no_sep : ∀ (l acc : List Char), sepChar ∉ acc →
    sepChar ∉ l.foldl (fun acc c => if c = sepChar then [] else acc ++ [c]) acc := by
  intro l
  induction l with
  | nil => intro acc h; exact h
  | cons c t ih =>
    intro acc h
    simp only [List.foldl_cons]
    by_cases hc : c = sepChar
    · rw [if_pos hc]; exact ih [] (by simp)
    · rw [if_neg hc]
      refine ih _ ?_
      intro hmem
      rcases List.mem_append.mp hmem with h1 | h2
      · exact h h1
      · simp only [List.mem_singleton] at h2
        exact hc h2.symm

/-- A basename contains no path separator. -/
theorem pyBasename_no_sep (s : String) : sepChar ∉ (pyBasename s).data :=
  afterLastSep_no_sep s.data [] (by simp)

/-- Whenever `check_one_file` returns a tuple (success or sentinel), its
name component is the basename of the path — with the 4-character
container suffix stripped first on the container route — and therefore
contains no separator. -/
theorem check_one_file_name (md5fn : Bytes → String) (inflate : Inflate)
    (fn : String) (content : Bytes) (sw : Bool)
    (out : String × Option (Nat × String))
    (h : check_one_file md5fn inflate fn content sw = .ok out) :
    out.1 = (if isUz2Name fn then pyBasename (fn.dropRight 4) else pyBasename fn)
      ∧ sepChar ∉ out.1.data := by
  by_cases h1 : isUz2Name fn = true
  · rw [check_one_file, if_pos h1, uz2Route] at h
    rw [if_pos h1]
    cases hd : decodeLoop inflate content with
    | error e => rw [hd] at h; simp at h
    | ok o =>
      rw [hd] at h
      cases o with
      | none =>
        simp only [] at h
        obtain rfl := Except.ok.inj h
        exact ⟨rfl, pyBasename_no_sep _⟩
      | some p =>
        obtain ⟨size, acc⟩ := p
        simp only [] at h
        obtain rfl := Except.ok.inj h
        exact ⟨rfl, pyBasename_no_sep _⟩
  · rw [check_one_file, if_neg h1] at h
    rw [if_neg h1]
    have hraw : rawRoute md5fn fn content = .ok out →
        out.1 = pyBasename fn ∧ sepChar ∉ out.1.data := by
      intro hr
      rw [rawRoute] at hr
      by_cases h3 : 2147483647 < content.length
      · rw [if_pos h3] at hr
        obtain rfl := Except.ok.inj hr
        exact ⟨rfl, pyBasename_no_sep _⟩
      · rw [if_neg h3] at hr
        obtain rfl := Except.ok.inj hr
        exact ⟨rfl, pyBasename_no_sep _⟩
    by_cases h2 : isKnownExt fn = true
    · rw [if_pos h2] at h
      exact hraw h
    · rw [if_neg h2] at h
      cases sw with
      | true =>
        rw [if_pos rfl] at h
        obtain rfl := Except.ok.inj h
        exact ⟨rfl, pyBasename_no_sep _⟩
      | false =>
        rw [if_neg (by simp)] at h
        exact hraw h

/-- A single well-formed encoded chunk parses as the one-chunk
sequence. -/
theorem specChunks_single (cs us : Nat) (p : Bytes) (hcs : cs < 4294967296)
    (hus : us < 4294967296) (hplen : p.length = cs) :
    specChunks (encodeU32 cs ++ (encodeU32 us ++ p)) = some [⟨cs, us, p⟩] := by
  have hlen := encChunk_length cs us p
  have hne : encodeU32 cs ++ (encodeU32 us ++ p) ≠ [] := by
    intro h
    have := congrArg List.length h
    rw [hlen] at this
    simp at this
  rw [specChunks]
  rw [specChunksF]
  rw [if_neg hne, if_neg (by rw [hlen]; omega)]
  rw [encChunk_take4, parseU32_encodeU32 hcs, encChunk_drop4_take4, parseU32_encodeU32 hus,
      encChunk_drop8]
  simp only []
  rw [List.take_of_length_le (le_of_eq hplen)]
  rw [if_neg (by omega : ¬ (p.length < cs))]
  have hdrop : (encodeU32 cs ++ (encodeU32 us ++ p)).drop (8 + cs) = [] := by
    rw [← List.drop_drop, encChunk_drop8, ← hplen, List.drop_length]
  rw [hdrop, specChunksF_congr _ 1 [] (by simp [hlen]) (by simp)]
  rfl

/-! ## Claim theorems -/

/-- C1 counterexample: a `.uz2` file of on-disk size 2147483648 bytes
(> 2147483647) is not skipped: `check_one_file` routes it to the
container decoder, which (with an inflate oracle standing for zlib)
produces a size and a digest rather than the `(rfn, None, None)`
sentinel, because the oversize check sits after the extension routing
and the container branch returns before reaching it. -/
theorem c1_counterexample :
    2147483647 <
      (encodeU32 2147483640 ++ (encodeU32 1 ++ List.replicate 2147483640 0)).length ∧
    check_one_file (fun _ => "d") (fun _ _ _ => some [0]) "a.uz2"
        (encodeU32 2147483640 ++ (encodeU32 1 ++ List.replicate 2147483640 0)) true
      = .ok ("a", some (1, "d")) ∧
    (Except.ok ("a", some (1, "d")) : Except PyExc (String × Option (Nat × String)))
      ≠ .ok ("a", none) := by
  refine ⟨?_, ?_, by simp⟩
  · rw [encChunk_length, List.length_replicate]; omega
  · have hp : specChunks (encodeU32 2147483640 ++ (encodeU32 1 ++ List.replicate 2147483640 0))
        = some [⟨2147483640, 1, List.replicate 2147483640 0⟩] :=
      specChunks_single _ _ _ (by omega) (by omega) (List.length_replicate _ _)
    have hd : decompressAll (fun _ _ _ => some [0]) [⟨2147483640, 1, List.replicate 2147483640 0⟩]
        = some [[0]] := rfl
    rw [check_uz2_ok (fun _ => "d") (fun _ _ _ => some [0]) "a.uz2" _ true _ _ (by decide) hp hd]
    rfl

/-- C1 (amended): the 2147483647-byte oversize check is applied only on
the raw-hash route, after the extension routing: a `.uz2` name is always
handed to the container decoder (no size check), while a recognized
non-container file whose size exceeds the bound is skipped with the
no-hash sentinel. -/
theorem c1_oversize_after_routing :
    (∀ (md5fn : Bytes → String) (inflate : Inflate) (fn : String) (content : Bytes) (sw : Bool),
        isUz2Name fn = true →
        check_one_file md5fn inflate fn content sw = uz2Route md5fn inflate fn content) ∧
    (∀ (md5fn : Bytes → String) (inflate : Inflate) (fn : String) (content : Bytes) (sw : Bool),
        isUz2Name fn = false → isKnownExt fn = true → 2147483647 < content.length →
        check_one_file md5fn inflate fn content sw = .ok (pyBasename fn, none)) := by
  constructor
  · intro md5fn inflate fn content sw h
    rw [check_one_file, if_pos h]
  · intro md5fn inflate fn content sw h1 h2 h3
    rw [check_one_file, if_neg (by simp [h1]), if_pos h2, rawRoute, if_pos h3]

/-- Witness for C1 (amended) at concrete inputs: an oversize `.u` file is
skipped by the raw route, and a `.uz2` name goes to the container
route. -/
theorem c1_oversize_after_routing_witness :
    check_one_file (fun _ => "d") (fun _ _ _ => none) "a.u" (List.replicate 2147483648 0) true
      = .ok ("a.u", none) ∧
    check_one_file (fun _ => "d") (fun _ _ _ => none) "b.uz2" [] true
      = uz2Route (fun _ => "d") (fun _ _ _ => none) "b.uz2" [] := by
  constructor
  · rw [c1_oversize_after_routing.2 (fun _ => "d") (fun _ _ _ => none) "a.u"
      (List.replicate 2147483648 0) true (by decide) (by decide)
      (by rw [List.length_replicate]; omega)]
    rfl
  · exact c1_oversize_after_routing.1 _ _ "b.uz2" [] true (by decide)

/-- C2 counterexample: a container whose single chunk declares
`uncompressed_size = 0` (first conjunct) or `compressed_size = 0`
(second conjunct) is not aborted with any MalformedChunk outcome: the
code only logs, proceeds to the inflate call, and — when the inflate
succeeds, as real zlib does for `us = 0`, its third argument being only
an initial buffer size — returns a digest for the file. -/
theorem c2_counterexample :
    check_one_file (fun _ => "d") (fun _ _ _ => some [7]) "a.uz2"
        [3, 0, 0, 0, 0, 0, 0, 0, 9, 9, 9] true = .ok ("a", some (0, "d")) ∧
    check_one_file (fun _ => "d") (fun _ _ _ => some [7]) "a.uz2"
        [0, 0, 0, 0, 5, 0, 0, 0] true = .ok ("a", some (5, "d")) :=
  ⟨rfl, rfl⟩

/-- C2 (amended): zero-valued chunk size fields are not fatal by
themselves and produce no distinct MalformedChunk outcome: the decoder
only logs and proceeds to the inflate call, so a container that parses
exactly and all of whose chunks inflate successfully decodes to a
digest even when some chunk declares `compressed_size = 0` or
`uncompressed_size = 0`; the outcome is decided solely by truncation
and inflate success (size-bound violations likewise only warn). -/
theorem c2_zero_sizes_not_fatal (md5fn : Bytes → String) (inflate : Inflate)
    (fn : String) (content : Bytes) (sw : Bool) (cl : List Chunk) (outs : List Bytes)
    (hfn : isUz2Name fn = true) (hp : specChunks content = some cl)
    (hzero : ∃ c ∈ cl, c.cs = 0 ∨ c.us = 0)
    (hd : decompressAll inflate cl = some outs) :
    check_one_file md5fn inflate fn content sw
      = .ok (pyBasename (fn.dropRight 4), some (sumUs cl, md5fn outs.flatten)) :=
  check_uz2_ok md5fn inflate fn content sw cl outs hfn hp hd

/-- Witness for C2 (amended): a two-byte-payload chunk declaring
`uncompressed_size = 0` still decodes and the file gets a digest. -/
theorem c2_zero_sizes_not_fatal_witness :
    check_one_file (fun _ => "d") (fun b _ n => some (b ++ [n])) "z.uz2"
        [2, 0, 0, 0, 0, 0, 0, 0, 4, 5] true
      = .ok ("z", some (0, "d")) := by
  have h := c2_zero_sizes_not_fatal (fun _ => "d") (fun b _ n => some (b ++ [n])) "z.uz2"
    [2, 0, 0, 0, 0, 0, 0, 0, 4, 5] true [⟨2, 0, [4, 5]⟩] [[4, 5, 0]]
    (by decide) rfl ⟨⟨2, 0, [4, 5]⟩, by simp, Or.inr rfl⟩ rfl
  exact h

/-- C3 counterexample: the decoder does not inflate in raw/headerless
mode.  An inflate primitive that succeeds exactly on raw-mode calls
(`wbits < 0`) makes the decode of a well-formed one-chunk container
fail, while one that succeeds exactly at `wbits = 15` makes it succeed;
and the `wbits` value the code passes (`UZ2_WBITS = 15`, the
zlib-header format) is not a raw-mode value. -/
theorem c3_counterexample :
    check_one_file (fun _ => "d")
        (fun _ w _ => if w < 0 then some [1] else none) "a.uz2"
        [1, 0, 0, 0, 1, 0, 0, 0, 7] true = .error .zlibError ∧
    check_one_file (fun _ => "d")
        (fun _ w _ => if w = UZ2_WBITS then some [1] else none) "a.uz2"
        [1, 0, 0, 0, 1, 0, 0, 0, 7] true = .ok ("a", some (1, "d")) ∧
    ¬ zlibRawMode UZ2_WBITS :=
  ⟨rfl, rfl, by simp [zlibRawMode, UZ2_WBITS]⟩

/-- C3 (amended): every inflate call the decoder makes passes
`wbits = UZ2_WBITS = 15` — the zlib-wrapped format that expects a zlib
header, not raw deflate — with the chunk's declared `uncompressed_size`
as the bufsize argument (so the classifier's result depends on the
inflate primitive only through its behavior at `wbits = 15`); and an
inflate failure on a reachable chunk aborts the whole file as an
escaping `zlib.error`, producing no digest. -/
theorem c3_wbits15_and_error_aborts :
    UZ2_WBITS = 15 ∧
    (∀ (md5fn : Bytes → String) (i₁ i₂ : Inflate),
        (∀ b n, i₁ b UZ2_WBITS n = i₂ b UZ2_WBITS n) →
        ∀ (fn : String) (content : Bytes) (sw : Bool),
          check_one_file md5fn i₁ fn content sw = check_one_file md5fn i₂ fn content sw) ∧
    (∀ (md5fn : Bytes → String) (inflate : Inflate) (fn : String) (sw : Bool)
        (pre : Bytes) (cl : List Chunk) (outs : List Bytes) (cs us : Nat) (p rest : Bytes),
        isUz2Name fn = true → specChunks pre = some cl →
        decompressAll inflate cl = some outs →
        cs < 4294967296 → us < 4294967296 → p.length = cs →
        inflate p UZ2_WBITS us = none →
        check_one_file md5fn inflate fn
            (pre ++ (encodeU32 cs ++ (encodeU32 us ++ (p ++ rest)))) sw
          = .error .zlibError) :=
  ⟨rfl,
   fun md5fn i₁ i₂ h fn content sw => check_one_file_agree md5fn i₁ i₂ h fn content sw,
   fun md5fn inflate fn sw pre cl outs cs us p rest hfn hp hd hcs hus hplen hinf =>
     check_uz2_inflateFail md5fn inflate fn sw pre cl outs cs us p rest hfn hp hd hcs hus
       hplen hinf⟩

/-- Witness for C3 (amended) at concrete inputs: two oracles that agree
at `wbits = 15` give the same classifier result, and an
always-failing inflate aborts a one-chunk container with the zlib
error. -/
theorem c3_wbits15_and_error_aborts_witness :
    check_one_file (fun _ => "d") (fun _ w _ => if w = 15 then some [1] else none) "w.uz2"
        [1, 0, 0, 0, 1, 0, 0, 0, 7] true
      = check_one_file (fun _ => "d") (fun _ w _ => if w = 15 then some [1] else some [2])
          "w.uz2" [1, 0, 0, 0, 1, 0, 0, 0, 7] true ∧
    check_one_file (fun _ => "d") (fun _ _ _ => none) "w.uz2"
        ([] ++ (encodeU32 1 ++ (encodeU32 1 ++ ([7] ++ [])))) true = .error .zlibError := by
  constructor
  · exact c3_wbits15_and_error_aborts.2.1 (fun _ => "d") _ _ (fun b n => rfl) "w.uz2"
      [1, 0, 0, 0, 1, 0, 0, 0, 7] true
  · exact c3_wbits15_and_error_aborts.2.2 (fun _ => "d") (fun _ _ _ => none) "w.uz2" true
      [] [] [] 1 1 [7] [] (by decide) rfl rfl (by omega) (by omega) rfl rfl

/-- C4: a container stream consisting of well-formed, fully-inflating
chunks followed by a chunk header that declares `compressed_size`
payload bytes of which fewer are actually present makes
`check_one_file` return the `(rfn, None, None)` sentinel: the file is
not indexed, no digest is returned, and no exception escapes the
decoder.  Removing the final byte of the last chunk payload of a valid
container is exactly such a stream. -/
theorem c4_truncated_payload_sentinel (md5fn : Bytes → String) (inflate : Inflate)
    (fn : String) (sw : Bool) (pre : Bytes) (cl : List Chunk) (outs : List Bytes)
    (cs us : Nat) (p : Bytes)
    (hfn : isUz2Name fn = true) (hp : specChunks pre = some cl)
    (hd : decompressAll inflate cl = some outs)
    (hcs : cs < 4294967296) (hus : us < 4294967296) (hshort : p.length < cs) :
    check_one_file md5fn inflate fn (pre ++ (encodeU32 cs ++ (encodeU32 us ++ p))) sw
      = .ok (pyBasename (fn.dropRight 4), none) :=
  check_uz2_trunc md5fn inflate fn sw pre cl outs cs us p hfn hp hd hcs hus hshort

/-- Witness for C4: a valid one-chunk container followed by a chunk
declaring 2 payload bytes with only 1 present (the final byte removed)
yields the sentinel. -/
theorem c4_truncated_payload_sentinel_witness :
    check_one_file (fun _ => "d") (fun b _ n => some (b ++ [n])) "t.uz2"
        ([1, 0, 0, 0, 2, 0, 0, 0, 5] ++ (encodeU32 2 ++ (encodeU32 1 ++ [9]))) true
      = .ok ("t", none) := by
  have h := c4_truncated_payload_sentinel (fun _ => "d") (fun b _ n => some (b ++ [n])) "t.uz2"
    true [1, 0, 0, 0, 2, 0, 0, 0, 5] [⟨1, 2, [5]⟩] [[5, 2]] 2 1 [9]
    (by decide) rfl rfl (by omega) (by omega) (by decide)
  exact h

/-- C5: for a valid container (a byte string that parses exactly into
chunks) whose chunks all satisfy the declared size bounds and all
inflate successfully, the streaming decode-and-hash pass returns, for
every digest function, the digest of the single byte string obtained by
concatenating the independently decompressed chunk payloads in order
(and the declared-size total as the logical size). -/
theorem c5_streaming_digest_eq_concat (md5fn : Bytes → String) (inflate : Inflate)
    (fn : String) (content : Bytes) (sw : Bool) (cl : List Chunk) (outs : List Bytes)
    (hfn : isUz2Name fn = true) (hp : specChunks content = some cl)
    (hbounds : ∀ c ∈ cl, c.cs ≤ 33096 ∧ c.us ≤ 32768)
    (hd : decompressAll inflate cl = some outs) :
    check_one_file md5fn inflate fn content sw
      = .ok (pyBasename (fn.dropRight 4), some (sumUs cl, md5fn outs.flatten)) :=
  check_uz2_ok md5fn inflate fn content sw cl outs hfn hp hd

/-- Witness for C5: a two-chunk container within bounds; the digest
function recognizes exactly the concatenation of the two independently
decompressed payloads. -/
theorem c5_streaming_digest_eq_concat_witness :
    check_one_file (fun l => if l = [8, 9, 3, 4, 2] then "D" else "E")
        (fun b _ n => some (b ++ [n])) "m.uz2"
        [2, 0, 0, 0, 3, 0, 0, 0, 8, 9, 1, 0, 0, 0, 2, 0, 0, 0, 4] true
      = .ok ("m", some (5, "D")) := by
  have h := c5_streaming_digest_eq_concat (fun l => if l = [8, 9, 3, 4, 2] then "D" else "E")
    (fun b _ n => some (b ++ [n])) "m.uz2"
    [2, 0, 0, 0, 3, 0, 0, 0, 8, 9, 1, 0, 0, 0, 2, 0, 0, 0, 4] true
    [⟨2, 3, [8, 9]⟩, ⟨1, 2, [4]⟩] [[8, 9, 3], [4, 2]]
    (by decide) rfl (by decide) rfl
  exact h

/-- C6 (code bug): when the very first regular file of a batch raises
inside `check_one_file` (here: its only chunk fails to inflate), the
bare `except` handler of `scan_directory` logs with the local `rfn`,
which is still unassigned, so an `UnboundLocalError` escapes and aborts
the whole batch — contrary to the intended (and spec'd) log-and-continue
behavior, which does hold once `rfn` has been bound by an earlier
iteration, as the second conjunct shows with the same two files in the
opposite order. -/
theorem c6_first_file_failure_aborts_scan :
    scan_directory (fun _ => "0123456789abcdef0123456789abcdef") (fun _ _ _ => none)
        ⟨[], [], 1, false⟩
        [("bad.uz2", [1, 0, 0, 0, 1, 0, 0, 0, 7]), ("good.u", [5])]
      = .error .unboundLocalError ∧
    scan_directory (fun _ => "0123456789abcdef0123456789abcdef") (fun _ _ _ => none)
        ⟨[], [], 1, false⟩
        [("good.u", [5]), ("bad.uz2", [1, 0, 0, 0, 1, 0, 0, 0, 7])]
      = .ok ⟨[⟨1, "good.u", 1, "0123456789abcdef0123456789abcdef"⟩],
             [⟨1, "good.u", 1, "0123456789abcdef0123456789abcdef"⟩], 2, false⟩ :=
  ⟨rfl, rfl⟩

/-- C7: `remove_duplicates` keeps, for each `(filename, md5)` group
under case-sensitive comparison, exactly the row with the maximum id
(so singleton groups are untouched), deletes the other rows of each
group, and flushes immediately; in particular the three rows
`(1, "A", x, h1), (2, "A", x, h1), (3, "B", y, h2)` (sizes `x`, `y`
rendered as `7` and `8`) become exactly
`{(2, "A", x, h1), (3, "B", y, h2)}`. -/
theorem c7_remove_duplicates_keeps_group_max :
    (∀ db : DB, (db.rows.map Row.id).Nodup →
      (∀ r : Row, r ∈ db.remove_duplicates.rows
          ↔ r ∈ db.rows ∧ r.id = groupMaxId db.rows r.filename r.md5) ∧
      db.remove_duplicates.committed = db.remove_duplicates.rows) ∧
    DB.remove_duplicates
        ⟨[⟨1, "A", 7, "h1"⟩, ⟨2, "A", 7, "h1"⟩, ⟨3, "B", 8, "h2"⟩], [], 4, false⟩
      = ⟨[⟨2, "A", 7, "h1"⟩, ⟨3, "B", 8, "h2"⟩],
         [⟨2, "A", 7, "h1"⟩, ⟨3, "B", 8, "h2"⟩], 4, false⟩ :=
  ⟨fun db hnd => ⟨remove_duplicates_mem_iff db hnd, remove_duplicates_commits db⟩, by decide⟩

/-- Witness for C7 at the concrete store of the claim: the survival test
for the row with id 2. -/
theorem c7_remove_duplicates_keeps_group_max_witness :
    (⟨2, "A", 7, "h1"⟩ : Row) ∈
        (DB.remove_duplicates
          ⟨[⟨1, "A", 7, "h1"⟩, ⟨2, "A", 7, "h1"⟩, ⟨3, "B", 8, "h2"⟩], [], 4, false⟩).rows
      ↔ (⟨2, "A", 7, "h1"⟩ : Row) ∈
          (⟨[⟨1, "A", 7, "h1"⟩, ⟨2, "A", 7, "h1"⟩, ⟨3, "B", 8, "h2"⟩], [], 4, false⟩ : DB).rows
        ∧ (⟨2, "A", 7, "h1"⟩ : Row).id
            = groupMaxId
              (⟨[⟨1, "A", 7, "h1"⟩, ⟨2, "A", 7, "h1"⟩, ⟨3, "B", 8, "h2"⟩], [], 4, false⟩
                : DB).rows
              (⟨2, "A", 7, "h1"⟩ : Row).filename (⟨2, "A", 7, "h1"⟩ : Row).md5 :=
  (c7_remove_duplicates_keeps_group_max.1
    ⟨[⟨1, "A", 7, "h1"⟩, ⟨2, "A", 7, "h1"⟩, ⟨3, "B", 8, "h2"⟩], [], 4, false⟩
    (by decide)).1 ⟨2, "A", 7, "h1"⟩

/-- Inversion of a successful `put`: the row `(count, name, size, md5)`
is appended, the counter is incremented, and the durable state is
refreshed exactly when the incremented counter is a multiple of
`PERIODICALLY_COMMIT`. -/
theorem put_ok_inv {db : DB} {fn : String} {size : Nat} {md5 : String} {db' : DB}
    (h : db.put fn size md5 = .ok db') :
    db' = { db with
      rows := db.rows ++ [⟨db.count, if db.force_casefold then strLower fn else fn, size, md5⟩],
      count := db.count + 1,
      committed := if (db.count + 1) % PERIODICALLY_COMMIT = 0
        then db.rows ++ [⟨db.count, if db.force_casefold then strLower fn else fn, size, md5⟩]
        else db.committed } := by
  rw [DB.put] at h
  by_cases hmd : md5.length = 32
  · rw [if_pos hmd] at h
    simp only [] at h
    exact (Except.ok.inj h).symm
  · rw [if_neg hmd] at h
    exact absurd h (by simp)

/-- One insert with fixed arguments, for iterating `put` in concrete
stores (the digest literal has length 32, so the insert succeeds). -/
def putOnce (db : DB) : DB :=
  match db.put "f" 1 "0123456789abcdef0123456789abcdef" with
  | .ok db' => db'
  | .error _ => db

/-- C8 counterexample: the implicit flush is tied to the id counter, not
to the number of inserts performed.  From a fresh empty store the first
implicit flush happens after the 99th insert — not after the 100th, when
nothing is flushed — and on a store whose pre-existing maximum id is 98
it already happens after the very first insert. -/
theorem c8_counterexample :
    (putOnce^[98] (DB.initTable ⟨[], [], 0, false⟩ false)).committed = [] ∧
    (putOnce^[99] (DB.initTable ⟨[], [], 0, false⟩ false)).committed
      = (putOnce^[99] (DB.initTable ⟨[], [], 0, false⟩ false)).rows ∧
    (putOnce^[99] (DB.initTable ⟨[], [], 0, false⟩ false)).rows.length = 99 ∧
    (putOnce^[100] (DB.initTable ⟨[], [], 0, false⟩ false)).committed
      ≠ (putOnce^[100] (DB.initTable ⟨[], [], 0, false⟩ false)).rows ∧
    (putOnce (DB.initTable
        ⟨[⟨98, "g", 1, "0123456789abcdef0123456789abcdef"⟩],
         [⟨98, "g", 1, "0123456789abcdef0123456789abcdef"⟩], 0, false⟩ false)).committed
      = [⟨98, "g", 1, "0123456789abcdef0123456789abcdef"⟩,
         ⟨99, "f", 1, "0123456789abcdef0123456789abcdef"⟩] :=
  ⟨by decide, by decide, by decide, by decide, by decide⟩

/-- C8 (amended): the implicit flush fires exactly when the store's
next-id counter reaches a multiple of `PERIODICALLY_COMMIT = 100` after
the insert — i.e. after inserting the row whose id is congruent to 99
modulo 100 — which depends on the store's pre-existing contents through
the counter, not on the number of inserts performed; an explicit
`commit()` flushes at any time. -/
theorem c8_flush_on_counter_multiple :
    (∀ (db : DB) (fn : String) (size : Nat) (md5 : String) (db' : DB),
        db.put fn size md5 = .ok db' →
        db'.count = db.count + 1 ∧
        db'.committed
          = (if db'.count % PERIODICALLY_COMMIT = 0 then db'.rows else db.committed)) ∧
    (∀ db : DB, db.commit.committed = db.rows) := by
  constructor
  · intro db fn size md5 db' h
    obtain rfl := put_ok_inv h
    exact ⟨rfl, rfl⟩
  · intro db
    rfl

/-- Witness for C8 (amended): inserting into a store whose counter is at
99 flushes at once (the counter reaches 100). -/
theorem c8_flush_on_counter_multiple_witness :
    (⟨[⟨99, "f", 1, "0123456789abcdef0123456789abcdef"⟩],
      [⟨99, "f", 1, "0123456789abcdef0123456789abcdef"⟩], 100, false⟩ : DB).count
        = (⟨[], [], 99, false⟩ : DB).count + 1 ∧
    (⟨[⟨99, "f", 1, "0123456789abcdef0123456789abcdef"⟩],
      [⟨99, "f", 1, "0123456789abcdef0123456789abcdef"⟩], 100, false⟩ : DB).committed
      = (if (⟨[⟨99, "f", 1, "0123456789abcdef0123456789abcdef"⟩],
              [⟨99, "f", 1, "0123456789abcdef0123456789abcdef"⟩], 100, false⟩ : DB).count
            % PERIODICALLY_COMMIT = 0
         then (⟨[⟨99, "f", 1, "0123456789abcdef0123456789abcdef"⟩],
                [⟨99, "f", 1, "0123456789abcdef0123456789abcdef"⟩], 100, false⟩ : DB).rows
         else (⟨[], [], 99, false⟩ : DB).committed) :=
  c8_flush_on_counter_multiple.1 ⟨[], [], 99, false⟩ "f" 1
    "0123456789abcdef0123456789abcdef"
    ⟨[⟨99, "f", 1, "0123456789abcdef0123456789abcdef"⟩],
     [⟨99, "f", 1, "0123456789abcdef0123456789abcdef"⟩], 100, false⟩ rfl

/-- C9: ids are strictly increasing across the lifetime of a store and
never reused: `initialize` computes the next id as the maximum stored id
plus one (1 on an empty table); a successful `put` appends exactly the
row with the current counter as id and increments the counter, so the
stored ids always stay below the counter; `remove_duplicates` preserves
the maximum id; every stored id is bounded by the maximum; and after an
insert, a commit and a reopen, the freshly computed next id strictly
exceeds every stored id. -/
theorem c9_ids_strictly_increasing :
    (∀ (db : DB) (del : Bool),
        (db.initTable del).count = maxIdRows (db.initTable del).rows + 1) ∧
    (∀ (db : DB) (fn : String) (size : Nat) (md5 : String) (db' : DB),
        db.put fn size md5 = .ok db' →
        db'.count = db.count + 1 ∧
        db'.rows = db.rows
          ++ [⟨db.count, if db.force_casefold then strLower fn else fn, size, md5⟩]) ∧
    (∀ db : DB, (∀ r ∈ db.rows, r.id < db.count) →
        ∀ (fn : String) (size : Nat) (md5 : String) (db' : DB),
          db.put fn size md5 = .ok db' → ∀ r ∈ db'.rows, r.id < db'.count) ∧
    (∀ db : DB, maxIdRows db.remove_duplicates.rows = maxIdRows db.rows) ∧
    (∀ db : DB, ∀ r ∈ db.rows, r.id ≤ maxIdRows db.rows) ∧
    (∀ (db : DB) (fn : String) (size : Nat) (md5 : String) (db' : DB),
        db.put fn size md5 = .ok db' →
        ∀ r ∈ db'.rows, r.id < (db'.commit.reopen.initTable false).count) := by
  refine ⟨fun db del => rfl, ?_, ?_, remove_duplicates_maxId, fun db r hr => id_le_maxIdRows hr, ?_⟩
  · intro db fn size md5 db' h
    obtain rfl := put_ok_inv h
    exact ⟨rfl, rfl⟩
  · intro db hinv fn size md5 db' h
    obtain rfl := put_ok_inv h
    intro r hr
    rcases List.mem_append.mp hr with hold | hnew
    · exact Nat.lt_succ_of_lt (hinv r hold)
    · simp only [List.mem_singleton] at hnew
      subst hnew
      exact Nat.lt_succ_self _
  · intro db fn size md5 db' h r hr
    have hcount : (db'.commit.reopen.initTable false).count = maxIdRows db'.rows + 1 := rfl
    rw [hcount]
    exact Nat.lt_succ_of_le (id_le_maxIdRows hr)

/-- Witness for C9 at a concrete insert into a fresh store: the new row's
id (1) is below the advanced counter and below the next id computed
after commit and reopen. -/
theorem c9_ids_strictly_increasing_witness :
    (⟨1, "f", 1, "0123456789abcdef0123456789abcdef"⟩ : Row).id
        < (⟨[⟨1, "f", 1, "0123456789abcdef0123456789abcdef"⟩], [], 2, false⟩ : DB).count ∧
    (⟨1, "f", 1, "0123456789abcdef0123456789abcdef"⟩ : Row).id
        < ((⟨[⟨1, "f", 1, "0123456789abcdef0123456789abcdef"⟩], [], 2, false⟩
            : DB).commit.reopen.initTable false).count :=
  ⟨c9_ids_strictly_increasing.2.2.1 ⟨[], [], 1, false⟩ (by simp) "f" 1
      "0123456789abcdef0123456789abcdef"
      ⟨[⟨1, "f", 1, "0123456789abcdef0123456789abcdef"⟩], [], 2, false⟩ rfl
      ⟨1, "f", 1, "0123456789abcdef0123456789abcdef"⟩ (by simp),
   c9_ids_strictly_increasing.2.2.2.2.2 ⟨[], [], 1, false⟩ "f" 1
      "0123456789abcdef0123456789abcdef"
      ⟨[⟨1, "f", 1, "0123456789abcdef0123456789abcdef"⟩], [], 2, false⟩ rfl
      ⟨1, "f", 1, "0123456789abcdef0123456789abcdef"⟩ (by simp)⟩

/-- C10: the name component of every tuple `check_one_file` returns
(success or sentinel) is the basename of the path — computed after
stripping the four-character container suffix on the `.uz2` route — and
never contains a path separator, so stored names are bare file names. -/
theorem c10_name_is_basename (md5fn : Bytes → String) (inflate : Inflate)
    (fn : String) (content : Bytes) (sw : Bool) (out : String × Option (Nat × String))
    (h : check_one_file md5fn inflate fn content sw = .ok out) :
    out.1 = (if isUz2Name fn then pyBasename (fn.dropRight 4) else pyBasename fn)
      ∧ sepChar ∉ out.1.data :=
  check_one_file_name md5fn inflate fn content sw out h

/-- Witness for C10: hashing `d/e.uz2` names the record `e` — the
directory part and the container suffix are both gone. -/
theorem c10_name_is_basename_witness :
    ("e" : String)
        = (if isUz2Name "d/e.uz2" then pyBasename ("d/e.uz2".dropRight 4)
           else pyBasename "d/e.uz2")
      ∧ sepChar ∉ ("e" : String).data :=
  c10_name_is_basename (fun _ => "d") (fun _ _ _ => none) "d/e.uz2" [] true
    ("e", some (0, "d")) rfl

end UT2Hash
